import Mathlib

/-!
Verification development for the `githooks` git introspection layer
(`githooks/git.py`).  The Python string operations used by the source are
transliterated over `List Char` (a Lean `String` is a structure holding a
`List Char`), and every routine of `git.py` that the claims touch is embedded
as an executable Lean definition.  Fallible Python code (assertions,
exceptions) is embedded with `Except PyErr`.
-/

deriving instance DecidableEq for Except

namespace Githooks

/-- Python exception kinds that the embedded `git.py` code can raise. -/
inductive PyErr where
  | assertionError
  | attributeError
  | typeError
  | indexError
  | valueError
  | calledProcessError
deriving DecidableEq, Repr

/-! ## Python string primitives, over `List Char` -/

/-- Python `str.isspace` for the ASCII whitespace characters that matter for
`str.split(None)` / `str.strip()` on the command outputs consumed here. -/
def isPySpace (c : Char) : Bool :=
  c = ' ' || c = '\t' || c = '\n' || c = '\r' || c = '\x0b' || c = '\x0c'

/-- Python slicing `s[n:]`. -/
def pyDrop (s : String) (n : Nat) : String :=
  (s.data.drop n).asString

/-- Python slicing `s[:n]`. -/
def pyTake (s : String) (n : Nat) : String :=
  (s.data.take n).asString

/-- Python `s.startswith(pre)`. -/
def pyStartsWith (s pre : String) : Bool :=
  pre.data.isPrefixOf s.data

/-- Python `s.endswith(suf)`. -/
def pyEndsWith (s suf : String) : Bool :=
  suf.data.isSuffixOf s.data

/-- Python `s.strip()` (both ends). -/
def pyStrip (s : String) : String :=
  ((((s.data.dropWhile isPySpace).reverse).dropWhile isPySpace).reverse).asString

/-- Python `s.rstrip()` (right end only), used on the parent commit id. -/
def pyRstrip (s : String) : String :=
  (((s.data.reverse).dropWhile isPySpace).reverse).asString

/-- Python `needle in hay` substring membership. -/
def strContains (hay needle : String) : Bool :=
  hay.data.tails.any (fun t => needle.data.isPrefixOf t)

/-- Loop of Python `s.split(None, maxsplit)`: the input has already had its
leading whitespace removed; the first argument is the number of splits still
allowed.  Runs of whitespace separate tokens; once the split budget is
exhausted the remainder (with leading whitespace removed) is the last field;
an all-whitespace remainder yields no field. -/
def splitNoneAux : Nat → List Char → List (List Char)
  | _, [] => []
  | 0, cs => [cs]
  | Nat.succ k, cs =>
    let tok := cs.takeWhile (fun c => !isPySpace c)
    let rest := (cs.dropWhile (fun c => !isPySpace c)).dropWhile isPySpace
    if rest = [] then [tok] else tok :: splitNoneAux k rest

/-- Python `s.split(None, maxsplit)`. -/
def pySplitNone (maxsplit : Nat) (s : String) : List String :=
  (splitNoneAux maxsplit (s.data.dropWhile isPySpace)).map List.asString

/-- Split a character list at the first occurrence of `sep`, as Python
`s.split(sep, 1)` does when `sep` occurs; `none` when it does not. -/
def splitOnceAux (sep : List Char) : List Char → Option (List Char × List Char)
  | [] => none
  | c :: cs =>
    if sep.isPrefixOf (c :: cs) then some ([], (c :: cs).drop sep.length)
    else
      match splitOnceAux sep cs with
      | some (a, b) => some (c :: a, b)
      | none => none

/-- Python `s.split(sep, 1)` returning the two pieces, or `none` when `sep`
does not occur (in which case Python's 2-tuple unpacking raises). -/
def pySplitOnce (s sep : String) : Option (String × String) :=
  match splitOnceAux sep.data s.data with
  | some (a, b) => some (a.asString, b.asString)
  | none => none

/-- Loop of Python `s.split(sep)` for non-empty `sep`; the fuel starts at the
length of the input, which bounds the number of possible separator
occurrences. -/
def splitSepAux (sep : List Char) : Nat → List Char → List (List Char)
  | 0, cs => [cs]
  | Nat.succ k, cs =>
    match splitOnceAux sep cs with
    | none => [cs]
    | some (a, b) => a :: splitSepAux sep k b

/-- Python `s.split(sep)` for a non-empty separator. -/
def pySplitSep (sep s : String) : List String :=
  (splitSepAux sep.data s.data.length s.data).map List.asString

/-- Python `s.splitlines()` restricted to LF line endings, the separator in
the plumbing-command outputs consumed by `git.py`. -/
def pySplitLines (s : String) : List String :=
  if s = "" then []
  else
    let parts := pySplitSep "\n" s
    if parts.getLast? = some "" then parts.dropLast else parts

/-- Python `s.replace(old, new)` for one-character `old` and `new`, the only
shape used by the source (`temp.replace(" ", "\t")` at git.py:101). -/
def pyReplaceChar (old new : Char) (s : String) : String :=
  (s.data.map (fun c => if c = old then new else c)).asString

/-- Python `int(s)` on decimal text: optional surrounding whitespace, an
optional sign, then at least one digit; anything else raises `ValueError`. -/
def pyParseInt (s : String) : Except PyErr Int :=
  match (pyStrip s).data with
  | [] => .error .valueError
  | c :: rest =>
    let signed : Bool × List Char :=
      if c = '-' then (true, rest)
      else if c = '+' then (false, rest)
      else (false, c :: rest)
    if signed.2 ≠ [] ∧ signed.2.all Char.isDigit then
      let n : Nat := signed.2.foldl (fun a d => a * 10 + (d.toNat - 48)) 0
      .ok (if signed.1 then -(n : Int) else (n : Int))
    else .error .valueError

/-- Python `sep.join(parts)` for the single-character separator of
`posixpath.normpath`. -/
def joinWith (sep : String) : List String → String
  | [] => ""
  | [p] => p
  | p :: ps => p ++ sep ++ joinWith sep ps

/-! ## Entities of `git.py` -/

/-- Commit identity (`Commit.__init__` stores the id; all other attributes are
caches, modelled separately by `CommitState`). -/
structure Commit where
  commit_id : String
deriving DecidableEq, Repr

/-- The all-zero null commit id (`Commit.null_commit_id`). -/
def nullCommitId : String := "0000000000000000000000000000000000000000"

/-- Python `Commit.__eq__`: both operands are commits, compared by id. -/
def Commit.eqb (a b : Commit) : Bool :=
  a.commit_id == b.commit_id

/-- Python `Commit.__bool__`: false exactly on the null commit id. -/
def Commit.toBool (c : Commit) : Bool :=
  c.commit_id != nullCommitId

/-- Contribution properties (`Contributor.__init__`). -/
structure Contributor where
  name : String
  email : String
  timestamp : Int
deriving DecidableEq, Repr

/-- Python `Contributor.parse`: split the line at the first `" <"`, then at
the first `"> "`, then take the text before the next space as the integer
timestamp; a missing separator makes the 2-tuple unpacking raise
`ValueError`, as does a non-integer timestamp. -/
def Contributor.parse (line : String) : Except PyErr Contributor :=
  match pySplitOnce line " <" with
  | none => .error .valueError
  | some (name, r1) =>
    match pySplitOnce r1 "> " with
    | none => .error .valueError
    | some (email, r2) =>
      match pySplitOnce r2 " " with
      | none => .error .valueError
      | some (ts, _) =>
        match pyParseInt ts with
        | .error e => .error e
        | .ok t => .ok ⟨name, email, t⟩

/-- Python `Contributor.get_email_domain`: text after the first `@` (the
whole email when there is no `@`). -/
def Contributor.getEmailDomain (c : Contributor) : String :=
  (pySplitSep "@" c.email).getLastD c.email

/-- One committed file (`CommittedFile.__init__`): `path`, optional owning
`commit`, optional `mode` and `object_id` (set when built from a diff
record), plus the instance cache cells `content` and the project memo pair. -/
structure CommittedFile where
  path : String
  commit : Option Commit := none
  mode : Option String := none
  object_id : Option String := none
  content : Option String := none
  project_fetched : Bool := false
  projectsAttr : Option String := none
deriving DecidableEq, Repr

/-- Python `CommittedFile.__init__` including its
`assert mode is None or len(mode) == 6`. -/
def mkCommittedFile (path : String) (commit : Option Commit)
    (mode : Option String) (object_id : Option String) :
    Except PyErr CommittedFile :=
  match mode with
  | none => .ok { path := path, commit := commit, mode := none, object_id := object_id }
  | some m =>
    if m.data.length = 6 then
      .ok { path := path, commit := commit, mode := some m, object_id := object_id }
    else .error .assertionError

/-- Python `CommittedFile.__eq__`: equality of `path` and of `commit`
(commits by `Commit.__eq__`; two absent commits compare equal, an absent
commit never equals a present one). -/
def commitOptEqb : Option Commit → Option Commit → Bool
  | none, none => true
  | some a, some b => Commit.eqb a b
  | _, _ => false

/-- Python `CommittedFile.__eq__`. -/
def CommittedFile.eqb (f1 f2 : CommittedFile) : Bool :=
  f1.path == f2.path && commitOptEqb f1.commit f2.commit

/-! ## Commit body parsing (`Commit._fetch_content`, git.py:72-92) -/

/-- The attributes `Commit._fetch_content` fills in: parents, author,
committer (each `none` while the corresponding Python attribute is unset) and
the message lines. -/
structure FetchedContent where
  parents : List Commit
  author : Option Contributor
  committer : Option Contributor
  message_lines : List String
deriving DecidableEq, Repr

/-- Header loop of `Commit._fetch_content`: consume lines until the first
empty one, accumulating `parent ` ids in order and recording the last
`author ` / `committer ` header via `Contributor.parse`; returns the
accumulated attributes and the unconsumed lines (the message). -/
def fetchHeaders : List String → FetchedContent → Except PyErr (FetchedContent × List String)
  | [], acc => .ok (acc, [])
  | l :: ls, acc =>
    if l = "" then .ok (acc, ls)
    else if pyStartsWith l "parent " then
      fetchHeaders ls { acc with parents := acc.parents ++ [⟨pyRstrip (pyDrop l 7)⟩] }
    else if pyStartsWith l "author " then
      match Contributor.parse (pyDrop l 7) with
      | .error e => .error e
      | .ok a => fetchHeaders ls { acc with author := some a }
    else if pyStartsWith l "committer " then
      match Contributor.parse (pyDrop l 10) with
      | .error e => .error e
      | .ok c => fetchHeaders ls { acc with committer := some c }
    else fetchHeaders ls acc

/-- Python `Commit._fetch_content` applied to the raw commit object body:
header lines up to the first blank line, then message lines. -/
def fetchContent (body : String) : Except PyErr FetchedContent :=
  match fetchHeaders (pySplitLines body) ⟨[], none, none, []⟩ with
  | .error e => .error e
  | .ok (acc, rest) => .ok { acc with message_lines := rest }

/-- Python attribute read `self._author` (raises `AttributeError` while
unset), the body of `Commit.get_author` after the fetch. -/
def FetchedContent.getAuthor (c : FetchedContent) : Except PyErr Contributor :=
  match c.author with
  | some a => .ok a
  | none => .error .attributeError

/-- Python attribute read `self._committer`. -/
def FetchedContent.getCommitter (c : FetchedContent) : Except PyErr Contributor :=
  match c.committer with
  | some a => .ok a
  | none => .error .attributeError

/-- Python `Commit.get_author` on a fresh commit: fetch the body, then read
the `_author` attribute. -/
def commitGetAuthor (body : String) : Except PyErr Contributor :=
  match fetchContent body with
  | .error e => .error e
  | .ok c => c.getAuthor

/-- Python `Commit.get_committer` on a fresh commit. -/
def commitGetCommitter (body : String) : Except PyErr Contributor :=
  match fetchContent body with
  | .error e => .error e
  | .ok c => c.getCommitter

/-- Python `Commit.get_message_lines` on a fresh commit. -/
def commitGetMessageLines (body : String) : Except PyErr (List String) :=
  match fetchContent body with
  | .error e => .error e
  | .ok c => .ok c.message_lines

/-- Python `Commit.get_parents` on a fresh commit. -/
def commitGetParents (body : String) : Except PyErr (List Commit) :=
  match fetchContent body with
  | .error e => .error e
  | .ok c => .ok c.parents

/-! ## Summary tags (`Commit.parse_tags`, git.py:138-145) -/

/-- Loop of `Commit.parse_tags`: while the remainder starts with `[` and
contains `]`, strip the text up to the first `]` as a tag.  The fuel starts
at the length of the summary; every iteration removes at least two
characters, so the fuel never runs out on the initial call. -/
def parseTagsAux : Nat → List Char → List (List Char) × List Char
  | _, [] => ([], [])
  | 0, cs => ([], cs)
  | Nat.succ k, c :: cs =>
    if c = '[' ∧ ']' ∈ cs then
      let tag := cs.takeWhile (fun d => d ≠ ']')
      let rest := (cs.dropWhile (fun d => d ≠ ']')).tail
      let r := parseTagsAux k rest
      (tag :: r.1, r.2)
    else ([], c :: cs)

/-- Python `Commit.parse_tags` applied to the summary line: the ordered list
of bracketed tags and the remaining text. -/
def parseTags (summary : String) : List String × String :=
  let r := parseTagsAux summary.data.length summary.data
  (r.1.map List.asString, r.2.asString)

/-- Python `Commit.content_can_fail`: false exactly when some parsed tag is
one of the escape tags. -/
def contentCanFail (summary : String) : Bool :=
  !(parseTags summary).1.any (fun t => t ∈ ["HOTFIX", "MESS", "TEMP", "WIP"])

/-! ## Changed files (`Commit.get_changed_files`, git.py:153-178) -/

/-- Loop body of `Commit.get_changed_files` for one diff-tree output line:
split on whitespace into at most six fields, assert exactly six fields whose
first starts with `:`, and build the `CommittedFile` from fields 1 (mode),
3 (object id) and 5 (path). -/
def parseChangedLine (self : Commit) (line : String) : Except PyErr CommittedFile :=
  let ls := pySplitNone 5 line
  if ls.length = 6 then
    if pyStartsWith (ls.getD 0 "") ":" then
      mkCommittedFile (ls.getD 5 "") (some self) (some (ls.getD 1 "")) (some (ls.getD 3 ""))
    else .error .assertionError
  else .error .assertionError

/-- Python `Commit.get_changed_files` parsing applied to the decoded
diff-tree output: one `CommittedFile` per line, in order. -/
def parseChangedFiles (self : Commit) (output : String) : Except PyErr (List CommittedFile) :=
  (pySplitLines output).mapM (parseChangedLine self)

/-! ## Binary files (`Commit.get_binary_files`, git.py:180-201) -/

/-- Loop of `Commit.get_binary_files` over the numstat output lines: keep the
third tab-separated field of every line that has exactly three such fields
whose first two are the placeholder `-`. -/
def binaryFromLines : List String → List String
  | [] => []
  | l :: ls =>
    let p := pySplitSep "\t" l
    if p.length = 3 ∧ p.getD 0 "" = "-" ∧ p.getD 1 "" = "-" then
      p.getD 2 "" :: binaryFromLines ls
    else binaryFromLines ls

/-- Python `Commit.get_binary_files` parsing applied to the decoded log
numstat output. -/
def parseBinaryFiles (output : String) : List String :=
  binaryFromLines (pySplitLines output)

/-! ## Project attribution (`_get_project_info`, git.py:94-104 and 247-257) -/

/-- Shared body of `Commit._get_project_info` and
`CommittedFile._get_project_info`, applied to the lines of `git remote -v`
output: take the first line containing `push` (raising `IndexError` from the
`[0]` index when none exists), replace spaces by tabs, take tab-field 1 as
the URL (raising `IndexError` when the line has no second field), then the
text before the first `.` of the last `/`-segment. -/
def getProjectInfoLines (lines : List String) : Except PyErr String :=
  match lines.filter (fun l => strContains l "push") with
  | [] => .error .indexError
  | t :: _ =>
    let parts := pySplitSep "\t" (pyReplaceChar ' ' '\t' t)
    match parts.get? 1 with
    | none => .error .indexError
    | some url =>
      let projectName := (pySplitSep "/" url).getLastD url
      .ok ((pySplitSep "." projectName).headD projectName)

/-- `_get_project_info` applied to the raw `git remote -v` output. -/
def getProjectInfo (output : String) : Except PyErr String :=
  getProjectInfoLines (pySplitLines output)

/-! ## Mode classification (`CommittedFile`, git.py:277-285) -/

/-- Python `CommittedFile.regular`: `self.mode[:2] == '10'`; subscripting an
unset (`None`) mode raises `TypeError`. -/
def CommittedFile.regularE (f : CommittedFile) : Except PyErr Bool :=
  match f.mode with
  | none => .error .typeError
  | some m => .ok (pyTake m 2 == "10")

/-- Python `CommittedFile.symlink`: `self.mode[:2] == '12'`. -/
def CommittedFile.symlinkE (f : CommittedFile) : Except PyErr Bool :=
  match f.mode with
  | none => .error .typeError
  | some m => .ok (pyTake m 2 == "12")

/-- Python `CommittedFile.owner_can_execute`: `bool(int(self.mode[-3]) & 1)`;
an unset mode raises `TypeError`, a mode shorter than three characters
raises `IndexError`, a non-digit character raises `ValueError` from `int`. -/
def CommittedFile.ownerCanExecuteE (f : CommittedFile) : Except PyErr Bool :=
  match f.mode with
  | none => .error .typeError
  | some m =>
    if m.data.length < 3 then .error .indexError
    else
      match pyParseInt ⟨[m.data.getD (m.data.length - 3) ' ']⟩ with
      | .error e => .error e
      | .ok d => .ok (d % 2 == 1)

/-! ## Shebang (`CommittedFile.get_shebang` / `get_shebang_exe`,
git.py:323-343) -/

/-- Python `CommittedFile.get_shebang` given the (already fetched) content:
`None` unless the file is regular and the content starts with `#!`;
otherwise the first whitespace token of the content after stripping the `#!`
marker (an all-whitespace remainder makes the `[0]` index raise). -/
def getShebangOf (mode : Option String) (content : String) : Except PyErr (Option String) :=
  match mode with
  | none => .error .typeError
  | some m =>
    if pyTake m 2 == "10" then
      if pyStartsWith content "#!" then
        let stripped := pyStrip (pyDrop content 2)
        match pySplitNone 1 stripped with
        | [] => .error .indexError
        | t :: _ => .ok (some t)
      else .ok none
    else .ok none

/-- Python `CommittedFile.get_shebang_exe` given the content: `None` without
a shebang; for the exact shebang `/usr/bin/env` the first whitespace token of
the first content line after the `#!/usr/bin/env` prefix when one exists;
otherwise the last `/`-segment of the shebang. -/
def getShebangExeOf (mode : Option String) (content : String) : Except PyErr (Option String) :=
  match getShebangOf mode content with
  | .error e => .error e
  | .ok none => .ok none
  | .ok (some shebang) =>
    if shebang = "" then .ok none
    else if shebang = "/usr/bin/env" then
      match pySplitLines content with
      | [] => .error .indexError
      | line0 :: _ =>
        match pySplitNone 1 (pyDrop line0 14) with
        | t :: _ => .ok (some t)
        | [] => .ok (some ((pySplitSep "/" shebang).getLastD shebang))
    else .ok (some ((pySplitSep "/" shebang).getLastD shebang))

/-! ## Symlink target (`CommittedFile.get_symlink_target`, git.py:345-356) -/

/-- Python `posixpath.join` for two parts, none of which is empty-with-
absolute subtleties beyond the source's use: a second part starting with `/`
replaces the first, otherwise the parts are glued with `/` unless the first
is empty or already ends with `/`. -/
def posixJoin2 (a b : String) : String :=
  if pyStartsWith b "/" then b
  else if a = "" ∨ pyEndsWith a "/" then a ++ b
  else a ++ "/" ++ b

/-- Component loop of `posixpath.normpath`: empty and `.` components vanish;
`..` pops the previous component except at the start of a relative path or
after an unresolved `..`. -/
def normpathComps (initialSlashes : Nat) : List String → List String → List String
  | [], acc => acc
  | comp :: rest, acc =>
    if comp = "" ∨ comp = "." then normpathComps initialSlashes rest acc
    else if comp ≠ ".." ∨ (initialSlashes = 0 ∧ acc = []) ∨ acc.getLast? = some ".." then
      normpathComps initialSlashes rest (acc ++ [comp])
    else if acc ≠ [] then normpathComps initialSlashes rest acc.dropLast
    else normpathComps initialSlashes rest acc

/-- Python `posixpath.normpath`. -/
def normpath (p : String) : String :=
  if p = "" then "."
  else
    let initialSlashes : Nat :=
      if pyStartsWith p "/" then
        if pyStartsWith p "//" ∧ ¬ pyStartsWith p "///" then 2 else 1
      else 0
    let comps := normpathComps initialSlashes (pySplitSep "/" p) []
    let joined := (List.replicate initialSlashes '/').asString ++ joinWith "/" comps
    if joined = "" then "." else joined

/-- Python `CommittedFile.get_symlink_target` given the (already fetched)
link content: `None` for an absolute target or when the target normalized
against the symlink's own directory starts with `..`; otherwise a new
`CommittedFile` for the normalized path at the same commit (mode and object
id unset). -/
def getSymlinkTargetOf (f : CommittedFile) (content : String) : Option CommittedFile :=
  if pyStartsWith content "/" then none
  else
    let path := normpath (posixJoin2 (posixJoin2 f.path "..") content)
    if pyStartsWith path ".." then none
    else some { path := path, commit := f.commit }

/-! ## Stateful accessors with invocation counts

One `Commit` / `CommittedFile` instance owns memo cells that its accessors
fill on first use (`content_fetched`, `changed_files is None`, ...).  The
repository is immutable during a session, so the external commands are
modelled by fixed oracles (`Except` for commands that can exit non-zero);
each accessor returns its result, the updated instance state, and the number
of external invocations it performed. -/

/-- Mutable attributes of one Python `Commit` instance
(`Commit.__init__` plus the lazily set `_parents`/`_author`/`_committer`/
`_message_lines`/`_projects`): `none` models a Python attribute that is
still unset. -/
structure CommitState where
  commit_id : String
  content_fetched : Bool := false
  project_fetched : Bool := false
  changed_files : Option (List CommittedFile) := none
  binary_files : Option (List String) := none
  parentsAttr : Option (List Commit) := none
  authorAttr : Option Contributor := none
  committerAttr : Option Contributor := none
  messageAttr : Option (List String) := none
  projectsAttr : Option String := none
deriving DecidableEq, Repr

/-- Python `Commit.__init__`: only the id is set. -/
def Commit.init (id : String) : CommitState := { commit_id := id }

/-- Fixed outputs of the external commands one commit consults; a command
that exits non-zero is an `error` (`subprocess.CalledProcessError`). -/
structure CommitRepo where
  catFileCommit : Except PyErr String
  diffTree : Except PyErr String
  numstat : Except PyErr String
  remoteV : Except PyErr String
deriving Repr

/-- Stateful `Commit._fetch_content` guarded by `content_fetched`: runs the
`cat-file` command and the body parse on first use only.  The second
component counts external invocations. -/
def fetchContentS (repo : CommitRepo) (s : CommitState) :
    Except PyErr CommitState × Nat :=
  if s.content_fetched then (.ok s, 0)
  else
    match repo.catFileCommit with
    | .error e => (.error e, 1)
    | .ok body =>
      match fetchContent body with
      | .error e => (.error e, 1)
      | .ok fc =>
        (.ok { s with
                content_fetched := true
                parentsAttr := some fc.parents
                authorAttr := fc.author
                committerAttr := fc.committer
                messageAttr := some fc.message_lines }, 1)

/-- Attribute read `self._parents` on the instance state. -/
def CommitState.parentsE (s : CommitState) : Except PyErr (List Commit) :=
  match s.parentsAttr with
  | some p => .ok p
  | none => .error .attributeError

/-- Attribute read `self._author` on the instance state. -/
def CommitState.authorE (s : CommitState) : Except PyErr Contributor :=
  match s.authorAttr with
  | some a => .ok a
  | none => .error .attributeError

/-- Attribute read `self._committer` on the instance state. -/
def CommitState.committerE (s : CommitState) : Except PyErr Contributor :=
  match s.committerAttr with
  | some a => .ok a
  | none => .error .attributeError

/-- Attribute read `self._message_lines` on the instance state. -/
def CommitState.messageE (s : CommitState) : Except PyErr (List String) :=
  match s.messageAttr with
  | some m => .ok m
  | none => .error .attributeError

/-- Shared shape of the four body-backed getters (`get_parents`,
`get_author`, `get_committer`, `get_message_lines`): fetch the body unless
`content_fetched`, then read the requested attribute. -/
def viaFetch {α : Type} (extract : CommitState → Except PyErr α)
    (repo : CommitRepo) (s : CommitState) :
    Except PyErr α × CommitState × Nat :=
  match fetchContentS repo s with
  | (.ok s', n) => (extract s', s', n)
  | (.error e, n) => (.error e, s, n)

/-- Python `Commit.get_parents` on the instance state. -/
def getParentsS : CommitRepo → CommitState →
    Except PyErr (List Commit) × CommitState × Nat :=
  viaFetch CommitState.parentsE

/-- Python `Commit.get_author` on the instance state. -/
def getAuthorS : CommitRepo → CommitState →
    Except PyErr Contributor × CommitState × Nat :=
  viaFetch CommitState.authorE

/-- Python `Commit.get_committer` on the instance state. -/
def getCommitterS : CommitRepo → CommitState →
    Except PyErr Contributor × CommitState × Nat :=
  viaFetch CommitState.committerE

/-- Python `Commit.get_message_lines` on the instance state. -/
def getMessageLinesS : CommitRepo → CommitState →
    Except PyErr (List String) × CommitState × Nat :=
  viaFetch CommitState.messageE

/-- Python `Commit.get_changed_files` on the instance state: the diff-tree
command and parse run only while `changed_files` is the `None` sentinel;
a parse failure leaves the sentinel in place. -/
def getChangedFilesS (repo : CommitRepo) (s : CommitState) :
    Except PyErr (List CommittedFile) × CommitState × Nat :=
  match s.changed_files with
  | some cf => (.ok cf, s, 0)
  | none =>
    match repo.diffTree with
    | .error e => (.error e, s, 1)
    | .ok output =>
      match parseChangedFiles ⟨s.commit_id⟩ output with
      | .ok cf => (.ok cf, { s with changed_files := some cf }, 1)
      | .error e => (.error e, s, 1)

/-- Python `Commit.get_binary_files` on the instance state. -/
def getBinaryFilesS (repo : CommitRepo) (s : CommitState) :
    Except PyErr (List String) × CommitState × Nat :=
  match s.binary_files with
  | some bf => (.ok bf, s, 0)
  | none =>
    match repo.numstat with
    | .error e => (.error e, s, 1)
    | .ok output =>
      let bf := parseBinaryFiles output
      (.ok bf, { s with binary_files := some bf }, 1)

/-- Python `Commit.get_projects` on the instance state, guarded by
`project_fetched`. -/
def getProjectsS (repo : CommitRepo) (s : CommitState) :
    Except PyErr String × CommitState × Nat :=
  if s.project_fetched then
    (match s.projectsAttr with
     | some p => .ok p
     | none => .error .attributeError, s, 0)
  else
    match repo.remoteV with
    | .error e => (.error e, s, 1)
    | .ok output =>
      match getProjectInfo output with
      | .ok p => (.ok p, { s with project_fetched := true, projectsAttr := some p }, 1)
      | .error e => (.error e, s, 1)

/-- Fixed outputs of the external commands one committed file consults. -/
structure FileRepo where
  showFile : Except PyErr String
  catFileSize : Except PyErr String
  remoteV : Except PyErr String
deriving Repr

/-- Python `CommittedFile.get_content` on the instance: the `git show`
command runs only while the `content` cell is the `None` sentinel. -/
def getContentS (repo : FileRepo) (f : CommittedFile) :
    Except PyErr String × CommittedFile × Nat :=
  match f.content with
  | some c => (.ok c, f, 0)
  | none =>
    match repo.showFile with
    | .ok c => (.ok c, { f with content := some c }, 1)
    | .error e => (.error e, f, 1)

/-- Python `CommittedFile.get_file_size`: runs `cat-file -s` on every call
(no memo cell); a command failure degrades to `-1`, a non-integer output
raises `ValueError` from `int`. -/
def getFileSizeS (repo : FileRepo) (f : CommittedFile) :
    Except PyErr Int × CommittedFile × Nat :=
  match repo.catFileSize with
  | .ok out =>
    (match pyParseInt out with
     | .ok n => (.ok n, f, 1)
     | .error e => (.error e, f, 1))
  | .error _ => (.ok (-1), f, 1)

/-- Python `CommittedFile.get_shebang` on the instance: classification via
the (assertion-checked) mode, then the cached content. -/
def getShebangS (repo : FileRepo) (f : CommittedFile) :
    Except PyErr (Option String) × CommittedFile × Nat :=
  match f.mode with
  | none => (.error .typeError, f, 0)
  | some m =>
    if pyTake m 2 == "10" then
      match getContentS repo f with
      | (.ok c, f', n) => (getShebangOf (some m) c, f', n)
      | (.error e, f', n) => (.error e, f', n)
    else (.ok none, f, 0)

/-- Python `CommittedFile.get_projects` on the instance, guarded by
`project_fetched`. -/
def getFileProjectsS (repo : FileRepo) (f : CommittedFile) :
    Except PyErr String × CommittedFile × Nat :=
  if f.project_fetched then
    (match f.projectsAttr with
     | some p => .ok p
     | none => .error .attributeError, f, 0)
  else
    match repo.remoteV with
    | .error e => (.error e, f, 1)
    | .ok output =>
      match getProjectInfo output with
      | .ok p => (.ok p, { f with project_fetched := true, projectsAttr := some p }, 1)
      | .error e => (.error e, f, 1)

/-! ## General lemmas about the string primitives -/

theorem asString_data (s : String) : s.data.asString = s := rfl

theorem takeWhile_all_append {p : Char → Bool} (l₁ : List Char) (b : Char)
    (l₂ : List Char) (h : ∀ x ∈ l₁, p x = true) (hb : p b = false) :
    (l₁ ++ b :: l₂).takeWhile p = l₁ := by
  induction l₁ with
  | nil => simp [List.takeWhile_cons, hb]
  | cons c cs ih =>
    have hc : p c = true := h c (by simp)
    simp only [List.cons_append, List.takeWhile_cons, hc, if_true]
    rw [ih (fun x hx => h x (by simp [hx]))]

theorem dropWhile_all_append {p : Char → Bool} (l₁ : List Char) (b : Char)
    (l₂ : List Char) (h : ∀ x ∈ l₁, p x = true) (hb : p b = false) :
    (l₁ ++ b :: l₂).dropWhile p = b :: l₂ := by
  induction l₁ with
  | nil => simp [List.dropWhile_cons, hb]
  | cons c cs ih =>
    have hc : p c = true := h c (by simp)
    simp only [List.cons_append, List.dropWhile_cons, hc, if_true]
    exact ih (fun x hx => h x (by simp [hx]))

theorem dropWhile_length_le {p : Char → Bool} (l : List Char) :
    (l.dropWhile p).length ≤ l.length := by
  induction l with
  | nil => simp
  | cons c cs ih =>
    by_cases h : p c
    · simp only [List.dropWhile_cons, h, if_true, List.length_cons]; omega
    · simp [List.dropWhile_cons, h]

theorem strContains_iff (hay needle : String) :
    strContains hay needle = true ↔ needle.data <:+: hay.data := by
  unfold strContains
  rw [List.any_eq_true]
  constructor
  · rintro ⟨t, ht, hp⟩
    rw [List.mem_tails] at ht
    exact List.infix_iff_prefix_suffix.mpr ⟨t, (List.isPrefixOf_iff_prefix).mp hp, ht⟩
  · intro h
    obtain ⟨t, hp, hs⟩ := List.infix_iff_prefix_suffix.mp h
    exact ⟨t, (List.mem_tails t hay.data).mpr hs, (List.isPrefixOf_iff_prefix).mpr hp⟩

theorem strContains_append_right {b needle : String} (a : String)
    (h : strContains b needle = true) : strContains (a ++ b) needle = true := by
  rw [strContains_iff] at h ⊢
  rw [String.data_append]
  exact h.trans (List.suffix_append a.data b.data).isInfix

/-! ## Lemmas about `splitNoneAux` (Python `split(None, maxsplit)`) -/

theorem splitNoneAux_cons_eq (k : Nat) (x : Char) (xs : List Char) :
    splitNoneAux (k + 1) (x :: xs) =
      if ((x :: xs).dropWhile (fun ch => !isPySpace ch)).dropWhile isPySpace = [] then
        [(x :: xs).takeWhile (fun ch => !isPySpace ch)]
      else
        (x :: xs).takeWhile (fun ch => !isPySpace ch) ::
          splitNoneAux k (((x :: xs).dropWhile (fun ch => !isPySpace ch)).dropWhile isPySpace) :=
  rfl

theorem splitNoneAux_step (k : Nat) (t : List Char) (c : Char) (d : Char)
    (r : List Char) (ht : ∀ x ∈ t, isPySpace x = false) (hc : isPySpace c = true)
    (hd : isPySpace d = false) :
    splitNoneAux (k + 1) (t ++ c :: d :: r) = t :: splitNoneAux k (d :: r) := by
  have h1 : (t ++ c :: d :: r).takeWhile (fun x => !isPySpace x) = t :=
    takeWhile_all_append t c (d :: r) (fun x hx => by simp [ht x hx]) (by simp [hc])
  have h2 : (t ++ c :: d :: r).dropWhile (fun x => !isPySpace x) = c :: d :: r :=
    dropWhile_all_append t c (d :: r) (fun x hx => by simp [ht x hx]) (by simp [hc])
  obtain ⟨x, xs, hx⟩ : ∃ x xs, t ++ c :: d :: r = x :: xs := by
    cases t with
    | nil => exact ⟨c, d :: r, rfl⟩
    | cons a as => exact ⟨a, as ++ c :: d :: r, rfl⟩
  rw [hx, splitNoneAux_cons_eq, ← hx, h1, h2]
  simp [List.dropWhile_cons, hc, hd]

theorem splitNoneAux_zero_cons (d : Char) (r : List Char) :
    splitNoneAux 0 (d :: r) = [d :: r] := rfl

/-! ## Lemmas about `parseTagsAux` -/

theorem parseTagsAux_rest_shorter (cs : List Char) :
    ((cs.dropWhile (fun d => d ≠ ']')).tail).length ≤ cs.length := by
  have h1 : (cs.dropWhile (fun d => d ≠ ']')).length ≤ cs.length := dropWhile_length_le cs
  have h2 : ((cs.dropWhile (fun d => d ≠ ']')).tail).length =
      (cs.dropWhile (fun d => d ≠ ']')).length - 1 := List.length_tail _
  omega

theorem parseTagsAux_fuel_succ :
    ∀ (f : Nat) (cs : List Char), cs.length ≤ f →
      parseTagsAux (f + 1) cs = parseTagsAux f cs := by
  intro f
  induction f with
  | zero =>
    intro cs h
    have : cs = [] := List.length_eq_zero.mp (Nat.le_zero.mp h)
    subst this
    rfl
  | succ g ih =>
    intro cs h
    match cs with
    | [] => rfl
    | c :: cs' =>
      show parseTagsAux (g + 1 + 1) (c :: cs') = parseTagsAux (g + 1) (c :: cs')
      by_cases hcond : c = '[' ∧ ']' ∈ cs'
      · have hlen : ((cs'.dropWhile (fun d => d ≠ ']')).tail).length ≤ g := by
          have h1 : (cs'.dropWhile (fun d => d ≠ ']')).length ≤ cs'.length :=
            dropWhile_length_le cs'
          have h2 : ((cs'.dropWhile (fun d => d ≠ ']')).tail).length =
              (cs'.dropWhile (fun d => d ≠ ']')).length - 1 := List.length_tail _
          have h3 : ']' ∈ cs' := hcond.2
          have h4 : (cs'.dropWhile (fun d => d ≠ ']')) ≠ [] := by
            intro hnil
            have := List.dropWhile_eq_nil_iff.mp hnil ']' h3
            simp at this
          have h5 : 0 < (cs'.dropWhile (fun d => d ≠ ']')).length :=
            List.length_pos.mpr h4
          simp only [List.length_cons] at h
          omega
        simp only [parseTagsAux, if_pos hcond]
        rw [ih _ hlen]
      · simp only [parseTagsAux, if_neg hcond]

theorem parseTagsAux_fuel_ge :
    ∀ (f : Nat) (cs : List Char), cs.length ≤ f →
      parseTagsAux f cs = parseTagsAux cs.length cs := by
  intro f
  induction f with
  | zero =>
    intro cs h
    have : cs = [] := List.length_eq_zero.mp (Nat.le_zero.mp h)
    subst this; rfl
  | succ g ih =>
    intro cs h
    rcases Nat.lt_or_ge cs.length (g + 1) with hlt | hge
    · have hle : cs.length ≤ g := by omega
      rw [parseTagsAux_fuel_succ g cs hle, ih cs hle]
    · have : cs.length = g + 1 := by omega
      rw [this]

/-! ## Lemmas about single-character separator splits -/

theorem splitOnceAux_single (c : Char) :
    ∀ (l₁ l₂ : List Char), c ∉ l₁ →
      splitOnceAux [c] (l₁ ++ c :: l₂) = some (l₁, l₂) := by
  intro l₁
  induction l₁ with
  | nil =>
    intro l₂ _
    show splitOnceAux [c] (c :: l₂) = some ([], l₂)
    have hpre : [c].isPrefixOf (c :: l₂) = true := by
      simp [List.isPrefixOf]
    simp [splitOnceAux, hpre]
  | cons a as ih =>
    intro l₂ h
    have ha : a ≠ c := fun hac => h (by simp [hac])
    have has : c ∉ as := fun hmem => h (by simp [hmem])
    have hpre : [c].isPrefixOf (a :: (as ++ c :: l₂)) = false := by
      simp [List.isPrefixOf, Ne.symm ha]
    show splitOnceAux [c] (a :: (as ++ c :: l₂)) = some (a :: as, l₂)
    simp only [splitOnceAux, hpre, Bool.false_eq_true, if_false, ih l₂ has]

theorem splitSepAux_step (c : Char) (k : Nat) (l₁ l₂ : List Char)
    (h : c ∉ l₁) :
    splitSepAux [c] (k + 1) (l₁ ++ c :: l₂) = l₁ :: splitSepAux [c] k l₂ := by
  show (match splitOnceAux [c] (l₁ ++ c :: l₂) with
        | none => [l₁ ++ c :: l₂]
        | some (a, b) => a :: splitSepAux [c] k b) = l₁ :: splitSepAux [c] k l₂
  rw [splitOnceAux_single c l₁ l₂ h]

/-! ## Lemmas about `fetchHeaders` -/

theorem fetchHeaders_author_stable :
    ∀ (ls : List String) (acc acc' : FetchedContent) (rest : List String),
      fetchHeaders ls acc = .ok (acc', rest) →
      (∀ l ∈ ls, pyStartsWith l "author " = false) →
      acc'.author = acc.author := by
  intro ls
  induction ls with
  | nil =>
    intro acc acc' rest h _
    simp only [fetchHeaders] at h
    cases h
    rfl
  | cons l ls ih =>
    intro acc acc' rest h hnone
    have hl : pyStartsWith l "author " = false := hnone l (by simp)
    have hrest : ∀ x ∈ ls, pyStartsWith x "author " = false :=
      fun x hx => hnone x (by simp [hx])
    simp only [fetchHeaders] at h
    by_cases h0 : l = ""
    · simp only [h0, if_true] at h
      cases h
      rfl
    · simp only [h0, if_false] at h
      by_cases h1 : pyStartsWith l "parent " = true
      · simp only [h1, if_true] at h
        have hstep := ih _ _ _ h hrest
        exact hstep
      · simp only [h1, Bool.false_eq_true, if_false] at h
        simp only [hl, Bool.false_eq_true, if_false] at h
        by_cases h3 : pyStartsWith l "committer " = true
        · simp only [h3, if_true] at h
          cases hp : Contributor.parse (pyDrop l 10) with
          | error e => rw [hp] at h; simp at h
          | ok ctr =>
            rw [hp] at h
            have hstep := ih _ _ _ h hrest
            exact hstep
        · simp only [h3, Bool.false_eq_true, if_false] at h
          have hstep := ih _ _ _ h hrest
          exact hstep

theorem fetchHeaders_committer_stable :
    ∀ (ls : List String) (acc acc' : FetchedContent) (rest : List String),
      fetchHeaders ls acc = .ok (acc', rest) →
      (∀ l ∈ ls, pyStartsWith l "committer " = false) →
      acc'.committer = acc.committer := by
  intro ls
  induction ls with
  | nil =>
    intro acc acc' rest h _
    simp only [fetchHeaders] at h
    cases h
    rfl
  | cons l ls ih =>
    intro acc acc' rest h hnone
    have hl : pyStartsWith l "committer " = false := hnone l (by simp)
    have hrest : ∀ x ∈ ls, pyStartsWith x "committer " = false :=
      fun x hx => hnone x (by simp [hx])
    simp only [fetchHeaders] at h
    by_cases h0 : l = ""
    · simp only [h0, if_true] at h
      cases h
      rfl
    · simp only [h0, if_false] at h
      by_cases h1 : pyStartsWith l "parent " = true
      · simp only [h1, if_true] at h
        have hstep := ih _ _ _ h hrest
        exact hstep
      · simp only [h1, Bool.false_eq_true, if_false] at h
        by_cases h2 : pyStartsWith l "author " = true
        · simp only [h2, if_true] at h
          cases hp : Contributor.parse (pyDrop l 7) with
          | error e => rw [hp] at h; simp at h
          | ok ctr =>
            rw [hp] at h
            have hstep := ih _ _ _ h hrest
            exact hstep
        · simp only [h2, Bool.false_eq_true, if_false] at h
          simp only [hl, Bool.false_eq_true, if_false] at h
          have hstep := ih _ _ _ h hrest
          exact hstep

theorem infix_singleton_iff (x : Char) (l : List Char) : [x] <:+: l ↔ x ∈ l := by
  constructor
  · intro h
    exact h.subset (List.mem_singleton_self x)
  · intro h
    obtain ⟨s, t, rfl⟩ := List.append_of_mem h
    exact ⟨s, t, by simp⟩

theorem strContains_singleton (hay : String) (x : Char) :
    strContains hay ⟨[x]⟩ = true ↔ x ∈ hay.data := by
  rw [strContains_iff]
  exact infix_singleton_iff x hay.data

theorem parseTagsAux_succ_cons (k : Nat) (c : Char) (cs : List Char) :
    parseTagsAux (k + 1) (c :: cs) =
      if c = '[' ∧ ']' ∈ cs then
        ((cs.takeWhile (fun d => d ≠ ']')) ::
            (parseTagsAux k ((cs.dropWhile (fun d => d ≠ ']')).tail)).1,
          (parseTagsAux k ((cs.dropWhile (fun d => d ≠ ']')).tail)).2)
      else ([], c :: cs) := rfl

/-! ## Claim theorems -/

/-- C5: `parse_tags` repeatedly strips a leading bracketed prefix while the
remainder starts with `[` and contains `]`, returning the bracketed texts in
order plus the untouched remainder; `"[WIP][HOTFIX] fix thing"` yields tags
`WIP`, `HOTFIX` and remainder `" fix thing"`, and `"fix thing"` yields no
tags and the unchanged string. -/
theorem parse_tags_c5 :
    (∀ (tag rest : String), ']' ∉ tag.data →
      parseTags ("[" ++ tag ++ "]" ++ rest) =
        (tag :: (parseTags rest).1, (parseTags rest).2)) ∧
    (∀ s : String, ¬(pyStartsWith s "[" = true ∧ strContains s "]" = true) →
      parseTags s = ([], s)) ∧
    parseTags "[WIP][HOTFIX] fix thing" = (["WIP", "HOTFIX"], " fix thing") ∧
    parseTags "fix thing" = ([], "fix thing") := by
  refine ⟨?_, ?_, by decide, by decide⟩
  · intro tag rest hmem
    have hdata : ("[" ++ tag ++ "]" ++ rest).data =
        '[' :: (tag.data ++ ']' :: rest.data) := by
      simp [String.data_append]
    unfold parseTags
    rw [hdata]
    simp only [List.length_cons]
    rw [parseTagsAux_succ_cons]
    have hcond : ('[' : Char) = '[' ∧ ']' ∈ tag.data ++ ']' :: rest.data :=
      ⟨rfl, by simp⟩
    rw [if_pos hcond]
    have htake : (tag.data ++ ']' :: rest.data).takeWhile (fun d => d ≠ ']') = tag.data :=
      takeWhile_all_append tag.data ']' rest.data
        (fun x hx => by simp; exact fun he => hmem (he ▸ hx)) (by simp)
    have hdrop : (tag.data ++ ']' :: rest.data).dropWhile (fun d => d ≠ ']') = ']' :: rest.data :=
      dropWhile_all_append tag.data ']' rest.data
        (fun x hx => by simp; exact fun he => hmem (he ▸ hx)) (by simp)
    rw [htake, hdrop]
    simp only [List.tail_cons]
    have hfuel : (tag.data ++ ']' :: rest.data).length = rest.data.length +
        (tag.data.length + 1) := by
      simp [List.length_append]
      omega
    rw [hfuel]
    have hge : parseTagsAux (rest.data.length + (tag.data.length + 1)) rest.data =
        parseTagsAux rest.data.length rest.data :=
      parseTagsAux_fuel_ge _ rest.data (by omega)
    rw [hge]
    rfl
  · intro s hns
    obtain ⟨d⟩ := s
    cases d with
    | nil => rfl
    | cons c cs =>
      have hcond : ¬(c = '[' ∧ ']' ∈ cs) := by
        rintro ⟨h1, h2⟩
        apply hns
        constructor
        · show ['['].isPrefixOf (c :: cs) = true
          simp [List.isPrefixOf, h1]
        · exact (strContains_singleton ⟨c :: cs⟩ ']').mpr (List.mem_cons_of_mem c h2)
      unfold parseTags
      simp only [List.length_cons]
      rw [parseTagsAux_succ_cons, if_neg hcond]
      rfl


/-- Witness for C5: the stripping step of `parse_tags_c5` instantiated at a
concrete bracketed summary. -/
theorem parse_tags_c5_witness :
    parseTags ("[" ++ "WIP" ++ "]" ++ " go") =
      ("WIP" :: (parseTags " go").1, (parseTags " go").2) :=
  parse_tags_c5.1 "WIP" " go" (by decide)

/-- C9: two `CommittedFile` values are equal exactly when their paths are
equal and their commits are equal by commit id; mode and object id play no
role, so files built from the same path and commit with different
mode/object id are equal. -/
theorem committed_file_eq_c9 :
    (∀ (p : String) (c : Commit) (m1 o1 m2 o2 : Option String),
      CommittedFile.eqb
        { path := p, commit := some c, mode := m1, object_id := o1 }
        { path := p, commit := some c, mode := m2, object_id := o2 } = true) ∧
    (∀ (f1 f2 : CommittedFile) (c1 c2 : Commit),
      f1.commit = some c1 → f2.commit = some c2 →
      (CommittedFile.eqb f1 f2 = true ↔
        (f1.path = f2.path ∧ c1.commit_id = c2.commit_id))) := by
  constructor
  · intro p c m1 o1 m2 o2
    simp [CommittedFile.eqb, commitOptEqb, Commit.eqb]
  · intro f1 f2 c1 c2 h1 h2
    simp [CommittedFile.eqb, commitOptEqb, Commit.eqb, h1, h2]

/-- Witness for C9: two concrete files with the same path and commit and
different mode/object id are equal. -/
theorem committed_file_eq_c9_witness :
    CommittedFile.eqb
      { path := "a.py", commit := some ⟨"c1"⟩, mode := some "100644",
        object_id := some "aaa" }
      { path := "a.py", commit := some ⟨"c1"⟩, mode := some "100755",
        object_id := some "bbb" } = true :=
  (committed_file_eq_c9.2 _ _ ⟨"c1"⟩ ⟨"c1"⟩ rfl rfl).mpr ⟨rfl, rfl⟩

/-- C10: on a `CommittedFile` constructed without a mode (as the file
synthesized by `get_symlink_target` is), `regular()`, `symlink()`,
`owner_can_execute()` and `get_shebang()` all fail with the unset-mode
`TypeError` instead of returning a "not regular" / "no shebang" result. -/
theorem modeless_file_c10 :
    (∀ f : CommittedFile, f.mode = none →
      f.regularE = .error .typeError ∧
      f.symlinkE = .error .typeError ∧
      f.ownerCanExecuteE = .error .typeError ∧
      (∀ content : String, getShebangOf f.mode content = .error .typeError)) ∧
    (∀ (f g : CommittedFile) (content : String),
      getSymlinkTargetOf f content = some g → g.mode = none) := by
  constructor
  · intro f h
    refine ⟨?_, ?_, ?_, ?_⟩
    · simp [CommittedFile.regularE, h]
    · simp [CommittedFile.symlinkE, h]
    · simp [CommittedFile.ownerCanExecuteE, h]
    · intro content
      simp [getShebangOf, h]
  · intro f g content h
    unfold getSymlinkTargetOf at h
    by_cases h1 : pyStartsWith content "/" = true
    · rw [if_pos h1] at h
      cases h
    · rw [if_neg h1] at h
      by_cases h2 : pyStartsWith (normpath (posixJoin2 (posixJoin2 f.path "..") content)) ".." = true
      · rw [if_pos h2] at h
        cases h
      · rw [if_neg h2] at h
        cases h
        rfl

/-- Witness for C10: the accessors on a concrete modeless file fail. -/
theorem modeless_file_c10_witness :
    CommittedFile.regularE { path := "p", commit := some ⟨"c1"⟩ } =
      .error .typeError :=
  (modeless_file_c10.1 { path := "p", commit := some ⟨"c1"⟩ } rfl).1

/-- C8: `get_binary_files` includes a numstat line's path exactly when the
line has three tab-separated fields whose first two are the placeholder `-`;
the line `-TAB-TABimage.png` contributes `image.png` and `3TAB1TABcode.py`
contributes nothing. -/
theorem binary_files_c8 :
    (∀ (lines : List String) (path : String),
      path ∈ binaryFromLines lines ↔
        ∃ l ∈ lines,
          (pySplitSep "\t" l).length = 3 ∧
          (pySplitSep "\t" l).getD 0 "" = "-" ∧
          (pySplitSep "\t" l).getD 1 "" = "-" ∧
          (pySplitSep "\t" l).getD 2 "" = path) ∧
    binaryFromLines ["-\t-\timage.png"] = ["image.png"] ∧
    binaryFromLines ["3\t1\tcode.py"] = [] := by
  refine ⟨?_, by decide, by decide⟩
  intro lines path
  induction lines with
  | nil => simp [binaryFromLines]
  | cons l ls ih =>
    by_cases hc : (pySplitSep "\t" l).length = 3 ∧
        (pySplitSep "\t" l).getD 0 "" = "-" ∧ (pySplitSep "\t" l).getD 1 "" = "-"
    · simp only [binaryFromLines, if_pos hc, List.mem_cons, ih]
      constructor
      · rintro (h | ⟨l', hl', hrest⟩)
        · exact ⟨l, by simp, hc.1, hc.2.1, hc.2.2, h.symm⟩
        · exact ⟨l', by simp [hl'], hrest⟩
      · rintro ⟨l', hl', h3, h0, h1, h2⟩
        rcases hl' with rfl | hl''
        · left
          exact h2.symm
        · right
          exact ⟨l', hl'', h3, h0, h1, h2⟩
    · simp only [binaryFromLines, if_neg hc, ih]
      constructor
      · rintro ⟨l', hl', hrest⟩
        exact ⟨l', by simp [hl'], hrest⟩
      · rintro ⟨l', hl', h3, h0, h1, h2⟩
        rcases List.mem_cons.mp hl' with rfl | hl''
        · exact absurd ⟨h3, h0, h1⟩ hc
        · exact ⟨l', hl'', h3, h0, h1, h2⟩

/-- Witness for C8: the membership characterization instantiated on a
concrete numstat output. -/
theorem binary_files_c8_witness :
    "image.png" ∈ binaryFromLines ["-\t-\timage.png", "3\t1\tcode.py"] :=
  (binary_files_c8.1 _ _).mpr
    ⟨"-\t-\timage.png", by decide, by decide, by decide, by decide, by decide⟩

/-- C6: `get_symlink_target` returns no target when the content is an
absolute path or when the content joined to the symlink's own directory and
normalized starts with `..`; otherwise a new file for the normalized path at
the same commit.  Content `../../etc/passwd` from a two-level path yields no
target; content `sibling.txt` yields the sibling at the same commit. -/
theorem symlink_target_c6 :
    (∀ (f : CommittedFile) (content : String),
      (pyStartsWith content "/" = true → getSymlinkTargetOf f content = none) ∧
      (pyStartsWith content "/" = false →
        (pyStartsWith (normpath (posixJoin2 (posixJoin2 f.path "..") content)) ".." = true →
          getSymlinkTargetOf f content = none) ∧
        (pyStartsWith (normpath (posixJoin2 (posixJoin2 f.path "..") content)) ".." = false →
          getSymlinkTargetOf f content =
            some { path := normpath (posixJoin2 (posixJoin2 f.path "..") content),
                   commit := f.commit }))) ∧
    getSymlinkTargetOf
      { path := "subdir/link", commit := some ⟨"c1"⟩, mode := some "120000",
        object_id := some "oid" } "../../etc/passwd" = none ∧
    getSymlinkTargetOf
      { path := "dir/link", commit := some ⟨"c1"⟩, mode := some "120000",
        object_id := some "oid" } "sibling.txt" =
      some { path := "dir/sibling.txt", commit := some ⟨"c1"⟩ } := by
  refine ⟨?_, by decide, by decide⟩
  intro f content
  constructor
  · intro h
    simp [getSymlinkTargetOf, h]
  · intro h
    constructor
    · intro h2
      simp [getSymlinkTargetOf, h, h2]
    · intro h2
      simp [getSymlinkTargetOf, h, h2]

/-- Witness for C6: the general case distinction instantiated at a concrete
relative content that stays inside the repository. -/
theorem symlink_target_c6_witness :
    getSymlinkTargetOf { path := "a/b", commit := some ⟨"c2"⟩ } "c.txt" =
      some { path := normpath (posixJoin2 (posixJoin2 "a/b" "..") "c.txt"),
             commit := some ⟨"c2"⟩ } :=
  ((symlink_target_c6.1 { path := "a/b", commit := some ⟨"c2"⟩ } "c.txt").2
    (by decide)).2 (by decide)

/-- Counterexample for C2: on a commit body that lacks the author header the
single body fetch succeeds and `get_message_lines` / `get_parents` succeed —
contradicting the claim that every accessor triggering the body fetch fails —
and even `get_author` fails with an attribute-lookup error rather than a
structural parse error. -/
theorem commit_content_c2_counterexample :
    commitGetMessageLines "tree 123\ncommitter C <c@x.com> 5 +0000\n\nhello" =
      .ok ["hello"] ∧
    commitGetParents "tree 123\ncommitter C <c@x.com> 5 +0000\n\nhello" =
      .ok [] ∧
    commitGetAuthor "tree 123\ncommitter C <c@x.com> 5 +0000\n\nhello" =
      .error .attributeError := by
  refine ⟨by decide, by decide, by decide⟩

/-- C2 amended: when the fetched body parses, `get_author` (resp.
`get_committer`) fails with the attribute-lookup error exactly when the
corresponding header is absent, while `get_message_lines` and `get_parents`
succeed regardless; a body with no `author ` (resp. `committer `) header line
leaves that attribute unset. -/
theorem commit_content_c2_amended :
    ∀ (body : String) (c : FetchedContent), fetchContent body = .ok c →
      (c.author = none → commitGetAuthor body = .error .attributeError) ∧
      (c.committer = none → commitGetCommitter body = .error .attributeError) ∧
      commitGetMessageLines body = .ok c.message_lines ∧
      commitGetParents body = .ok c.parents ∧
      ((∀ l ∈ pySplitLines body, pyStartsWith l "author " = false) →
        c.author = none) ∧
      ((∀ l ∈ pySplitLines body, pyStartsWith l "committer " = false) →
        c.committer = none) := by
  intro body c h
  refine ⟨?_, ?_, ?_, ?_, ?_, ?_⟩
  · intro ha
    unfold commitGetAuthor
    rw [h]
    simp [FetchedContent.getAuthor, ha]
  · intro ha
    unfold commitGetCommitter
    rw [h]
    simp [FetchedContent.getCommitter, ha]
  · unfold commitGetMessageLines
    rw [h]
  · unfold commitGetParents
    rw [h]
  · intro hnone
    unfold fetchContent at h
    cases hh : fetchHeaders (pySplitLines body) ⟨[], none, none, []⟩ with
    | error e =>
      rw [hh] at h
      cases h
    | ok pr =>
      obtain ⟨acc, rest⟩ := pr
      rw [hh] at h
      cases h
      have hstable := fetchHeaders_author_stable _ _ _ _ hh hnone
      simpa using hstable
  · intro hnone
    unfold fetchContent at h
    cases hh : fetchHeaders (pySplitLines body) ⟨[], none, none, []⟩ with
    | error e =>
      rw [hh] at h
      cases h
    | ok pr =>
      obtain ⟨acc, rest⟩ := pr
      rw [hh] at h
      cases h
      have hstable := fetchHeaders_committer_stable _ _ _ _ hh hnone
      simpa using hstable

/-- Witness for C2 amended: a concrete authorless body where `get_author`
fails with the attribute error while `get_message_lines` succeeds. -/
theorem commit_content_c2_amended_witness :
    commitGetAuthor "tree 123\ncommitter C <c@x.com> 5 +0000\n\nmsg" =
      .error .attributeError :=
  (commit_content_c2_amended "tree 123\ncommitter C <c@x.com> 5 +0000\n\nmsg"
    ⟨[], none, some ⟨"C", "c@x.com", 5⟩, ["msg"]⟩ (by decide)).1 rfl

theorem getProjectInfoLines_eq (lines : List String) (t : String)
    (ts : List String)
    (h : lines.filter (fun l => strContains l "push") = t :: ts) :
    getProjectInfoLines lines =
      match (pySplitSep "\t" (pyReplaceChar ' ' '\t' t)).get? 1 with
      | none => .error .indexError
      | some url =>
        .ok ((pySplitSep "." ((pySplitSep "/" url).getLastD url)).headD
          ((pySplitSep "/" url).getLastD url)) := by
  unfold getProjectInfoLines
  rw [h]

/-- Counterexample for C3: with no remote line containing `push`,
`get_projects` raises an index error on both entity types instead of
degrading silently; and with a push URL whose last segment is
`my.project.git`, the result is the text before the first dot (`my`), not
the text with only the part after the last dot stripped (`my.project`). -/
theorem project_info_c3_counterexample :
    getProjectInfoLines ["origin\thttps://x/y.git (fetch)"] = .error .indexError ∧
    getProjectsS
      { catFileCommit := .ok "", diffTree := .ok "", numstat := .ok "",
        remoteV := .ok "origin\thttps://x/y.git (fetch)" }
      (Commit.init "c") = (.error .indexError, Commit.init "c", 1) ∧
    getFileProjectsS
      { showFile := .ok "", catFileSize := .ok "",
        remoteV := .ok "origin\thttps://x/y.git (fetch)" }
      { path := "p" } = (.error .indexError, { path := "p" }, 1) ∧
    getProjectInfoLines ["origin\thttps://github.com/foo/my.project.git (push)"] =
      .ok "my" ∧
    ("my" : String) ≠ "my.project" := by
  refine ⟨by decide, by decide, by decide, by decide, by decide⟩

/-- C3 amended: when no remote-listing line contains the word `push`,
`get_projects` raises an index error (there is no silent degradation); when
a well-formed push line exists, the result is the text before the first dot
of the last path segment of that first matching line's URL. -/
theorem project_info_c3_amended :
    (∀ lines : List String, (∀ l ∈ lines, strContains l "push" = false) →
      getProjectInfoLines lines = .error .indexError) ∧
    (∀ (pre post : List String) (name url : String),
      (∀ l ∈ pre, strContains l "push" = false) →
      '\t' ∉ name.data → ' ' ∉ name.data →
      '\t' ∉ url.data → ' ' ∉ url.data →
      getProjectInfoLines (pre ++ (name ++ "\t" ++ url ++ " (push)") :: post) =
        .ok ((pySplitSep "." ((pySplitSep "/" url).getLastD url)).headD
          ((pySplitSep "/" url).getLastD url))) := by
  constructor
  · intro lines hnone
    unfold getProjectInfoLines
    rw [List.filter_eq_nil_iff.mpr (fun l hl => by simp [hnone l hl])]
  · intro pre post name url hpre hnt hns hut hus
    have hline : strContains (name ++ "\t" ++ url ++ " (push)") "push" = true :=
      strContains_append_right (name ++ "\t" ++ url) (by decide)
    have hfilter : (pre ++ (name ++ "\t" ++ url ++ " (push)") :: post).filter
        (fun l => strContains l "push") =
        (name ++ "\t" ++ url ++ " (push)") ::
          post.filter (fun l => strContains l "push") := by
      rw [List.filter_append,
        List.filter_eq_nil_iff.mpr (fun l hl => by simp [hpre l hl]),
        List.nil_append, List.filter_cons, if_pos hline]
    have hmap : (pyReplaceChar ' ' '\t' (name ++ "\t" ++ url ++ " (push)")).data =
        name.data ++ '\t' :: (url.data ++ '\t' :: "(push)".data) := by
      show ((name ++ "\t" ++ url ++ " (push)").data.map
        (fun c => if c = ' ' then '\t' else c)) = _
      rw [String.data_append, String.data_append, String.data_append]
      rw [List.map_append, List.map_append, List.map_append]
      have h1 : name.data.map (fun c => if c = ' ' then '\t' else c) = name.data := by
        conv_rhs => rw [← List.map_id name.data]
        apply List.map_congr_left
        intro a ha
        have hne : a ≠ ' ' := fun hc => hns (hc ▸ ha)
        simp [hne]
      have h2 : url.data.map (fun c => if c = ' ' then '\t' else c) = url.data := by
        conv_rhs => rw [← List.map_id url.data]
        apply List.map_congr_left
        intro a ha
        have hne : a ≠ ' ' := fun hc => hus (hc ▸ ha)
        simp [hne]
      rw [h1, h2]
      simp
    have hlen : (pyReplaceChar ' ' '\t' (name ++ "\t" ++ url ++ " (push)")).data.length =
        (name.data.length + (url.data.length + 7)) + 1 := by
      rw [hmap]
      simp [List.length_append]
      omega
    obtain ⟨tail, hsplit⟩ : ∃ tail,
        pySplitSep "\t" (pyReplaceChar ' ' '\t' (name ++ "\t" ++ url ++ " (push)")) =
          name :: url :: tail := by
      unfold pySplitSep
      rw [hlen, hmap, show ("\t" : String).data = ['\t'] from rfl]
      rw [splitSepAux_step '\t' _ name.data _ hnt]
      rw [show name.data.length + (url.data.length + 7) =
        (name.data.length + url.data.length + 6) + 1 from by omega]
      rw [splitSepAux_step '\t' _ url.data _ hut]
      exact ⟨_, rfl⟩
    rw [getProjectInfoLines_eq _ _ _ hfilter, hsplit]
    rfl

/-- Witness for C3 amended: a concrete remote listing with one push line. -/
theorem project_info_c3_amended_witness :
    getProjectInfoLines ["origin\thttps://x/a.git (push)"] = .ok "a" := by
  have h := project_info_c3_amended.2 [] [] "origin" "https://x/a.git"
    (fun l hl => absurd hl (List.not_mem_nil l)) (by decide) (by decide)
    (by decide) (by decide)
  simp only [List.nil_append] at h
  have e1 : ("origin" ++ "\t" ++ "https://x/a.git" ++ " (push)" : String) =
      "origin\thttps://x/a.git (push)" := by decide
  rw [e1] at h
  have e2 : ((pySplitSep "."
      ((pySplitSep "/" "https://x/a.git").getLastD "https://x/a.git")).headD
      ((pySplitSep "/" "https://x/a.git").getLastD "https://x/a.git")) = "a" := by
    decide
  rw [e2] at h
  exact h

/-! ## C1: the diff-tree record -/

/-- A whitespace-free non-empty field of a plumbing-output record. -/
def isToken (s : String) : Bool :=
  !s.data.isEmpty && s.data.all (fun c => !isPySpace c)

/-- True when the string is non-empty and does not begin with whitespace. -/
def headNotSpace (s : String) : Bool :=
  match s.data with
  | [] => false
  | c :: _ => !isPySpace c

/-- One record of the per-commit changed-file output consumed by
`Commit.get_changed_files` (spec section 6: six whitespace-delimited fields
per line).  In the tool's raw in-line layout the colon is juxtaposed with the
old mode; then come the new mode, the old object id, the new object id and
the status letter, and after a tab the path. -/
structure DiffRecord where
  oldMode : String
  newMode : String
  oldId : String
  newId : String
  status : String
  path : String
deriving DecidableEq, Repr

/-- Rendering of one raw diff record into an output line. -/
def DiffRecord.render (r : DiffRecord) : String :=
  ":" ++ r.oldMode ++ " " ++ r.newMode ++ " " ++ r.oldId ++ " " ++ r.newId ++
    " " ++ r.status ++ "\t" ++ r.path

/-- Well-formedness of a raw diff record: the five leading fields are
non-empty and whitespace-free and the path is non-empty and does not begin
with whitespace. -/
def DiffRecord.wfb (r : DiffRecord) : Bool :=
  isToken r.oldMode && isToken r.newMode && isToken r.oldId &&
    isToken r.newId && isToken r.status && headNotSpace r.path

theorem isToken_cons {s : String} (h : isToken s = true) :
    ∃ d rest, s.data = d :: rest ∧ isPySpace d = false ∧
      ∀ x ∈ s.data, isPySpace x = false := by
  unfold isToken at h
  rw [Bool.and_eq_true] at h
  obtain ⟨h1, h2⟩ := h
  have hall : ∀ x ∈ s.data, isPySpace x = false := by
    intro x hx
    have := List.all_eq_true.mp h2 x hx
    simpa using this
  cases hd : s.data with
  | nil =>
    rw [hd] at h1
    simp at h1
  | cons d rest =>
    rw [hd] at hall
    exact ⟨d, rest, rfl, hall d (by simp), hall⟩

theorem splitNoneAux_token_step (k : Nat) (tokA : List Char) (sep : Char)
    (tokB rest : List Char)
    (ha : ∀ x ∈ tokA, isPySpace x = false) (hsep : isPySpace sep = true)
    (hb : ∃ d bs, tokB = d :: bs ∧ isPySpace d = false) :
    splitNoneAux (k + 1) (tokA ++ sep :: (tokB ++ rest)) =
      tokA :: splitNoneAux k (tokB ++ rest) := by
  obtain ⟨d, bs, rfl, hd⟩ := hb
  rw [List.cons_append]
  exact splitNoneAux_step k tokA sep d (bs ++ rest) ha hsep hd

theorem pySplitNone_render (r : DiffRecord) (hwf : r.wfb = true) :
    pySplitNone 5 r.render =
      [":" ++ r.oldMode, r.newMode, r.oldId, r.newId, r.status, r.path] := by
  unfold DiffRecord.wfb at hwf
  rw [Bool.and_eq_true, Bool.and_eq_true, Bool.and_eq_true, Bool.and_eq_true,
    Bool.and_eq_true] at hwf
  obtain ⟨⟨⟨⟨⟨h1, h2⟩, h3⟩, h4⟩, h5⟩, h6⟩ := hwf
  obtain ⟨_, _, _, _, hall1⟩ := isToken_cons h1
  obtain ⟨d2, r2, hc2, hd2, hall2⟩ := isToken_cons h2
  obtain ⟨d3, r3, hc3, hd3, hall3⟩ := isToken_cons h3
  obtain ⟨d4, r4, hc4, hd4, hall4⟩ := isToken_cons h4
  obtain ⟨d5, r5, hc5, hd5, hall5⟩ := isToken_cons h5
  obtain ⟨d6, rest6, hcons6, hd6⟩ : ∃ d rest, r.path.data = d :: rest ∧
      isPySpace d = false := by
    unfold headNotSpace at h6
    cases hd : r.path.data with
    | nil => rw [hd] at h6; cases h6
    | cons d rest =>
      rw [hd] at h6
      exact ⟨d, rest, rfl, by simpa using h6⟩
  have ha1 : ∀ x ∈ ':' :: r.oldMode.data, isPySpace x = false := by
    intro x hx
    rcases List.mem_cons.mp hx with rfl | hx'
    · decide
    · exact hall1 x hx'
  have hdata : r.render.data =
      (':' :: r.oldMode.data) ++ ' ' :: (r.newMode.data ++ ' ' ::
        (r.oldId.data ++ ' ' :: (r.newId.data ++ ' ' ::
          (r.status.data ++ '\t' :: r.path.data)))) := by
    unfold DiffRecord.render
    simp [String.data_append]
  unfold pySplitNone
  rw [hdata, List.cons_append, List.dropWhile_cons_of_neg (by decide),
    ← List.cons_append]
  rw [splitNoneAux_token_step 4 _ ' ' _ _ ha1 (by decide) ⟨d2, r2, hc2, hd2⟩]
  rw [splitNoneAux_token_step 3 _ ' ' _ _ hall2 (by decide) ⟨d3, r3, hc3, hd3⟩]
  rw [splitNoneAux_token_step 2 _ ' ' _ _ hall3 (by decide) ⟨d4, r4, hc4, hd4⟩]
  rw [splitNoneAux_token_step 1 _ ' ' _ _ hall4 (by decide) ⟨d5, r5, hc5, hd5⟩]
  rw [hcons6]
  rw [splitNoneAux_step 0 r.status.data '\t' d6 rest6 hall5 (by decide) hd6]
  rw [splitNoneAux_zero_cons, ← hcons6]
  have hcolon : List.asString (':' :: r.oldMode.data) = ":" ++ r.oldMode := by
    have : (':' :: r.oldMode.data) = (":" ++ r.oldMode).data := by
      rw [String.data_append]
      rfl
    rw [this, asString_data]
  simp only [List.map_cons, List.map_nil, hcolon, asString_data]

/-- C1: a well-formed diff record line splits into exactly six
whitespace-delimited fields whose first starts with `:`; the parser asserts
this shape and fails with the assertion error on any other shape, and the
`CommittedFile` it constructs carries the record's new mode and new object
id together with the path and the owning commit. -/
theorem changed_files_c1 :
    (∀ (self : Commit) (r : DiffRecord), r.wfb = true →
      r.newMode.data.length = 6 →
      pySplitNone 5 r.render =
        [":" ++ r.oldMode, r.newMode, r.oldId, r.newId, r.status, r.path] ∧
      pyStartsWith ((pySplitNone 5 r.render).getD 0 "") ":" = true ∧
      parseChangedLine self r.render =
        .ok { path := r.path, commit := some self, mode := some r.newMode,
              object_id := some r.newId }) ∧
    (∀ (self : Commit) (line : String), (pySplitNone 5 line).length ≠ 6 →
      parseChangedLine self line = .error .assertionError) ∧
    (∀ (self : Commit) (line : String),
      pyStartsWith ((pySplitNone 5 line).getD 0 "") ":" = false →
      parseChangedLine self line = .error .assertionError) := by
  have hmk : ∀ (path : String) (commit : Option Commit) (m : String)
      (oid : Option String), m.data.length = 6 →
      mkCommittedFile path commit (some m) oid =
        .ok { path := path, commit := commit, mode := some m, object_id := oid } := by
    intro path commit m oid h
    show (if m.data.length = 6 then
        Except.ok (CommittedFile.mk path commit (some m) oid none false none)
      else Except.error PyErr.assertionError) =
      Except.ok (CommittedFile.mk path commit (some m) oid none false none)
    rw [if_pos h]
  have hsix : ∀ (self : Commit) (line : String) (f0 f1 f2 f3 f4 f5 : String),
      pySplitNone 5 line = [f0, f1, f2, f3, f4, f5] →
      parseChangedLine self line =
        if pyStartsWith f0 ":" then mkCommittedFile f5 (some self) (some f1) (some f3)
        else .error .assertionError := by
    intro self line f0 f1 f2 f3 f4 f5 hs
    unfold parseChangedLine
    rw [hs]
    rfl
  refine ⟨?_, ?_, ?_⟩
  · intro self r hwf hlen
    have hsplit := pySplitNone_render r hwf
    have hstart : pyStartsWith (":" ++ r.oldMode) ":" = true := by
      show (":" : String).data.isPrefixOf ((":" ++ r.oldMode)).data = true
      rw [String.data_append]
      exact List.isPrefixOf_iff_prefix.mpr (List.prefix_append _ _)
    refine ⟨hsplit, by rw [hsplit]; exact hstart, ?_⟩
    rw [hsix self r.render _ _ _ _ _ _ hsplit, if_pos hstart,
      hmk r.path (some self) r.newMode (some r.newId) hlen]
  · intro self line h
    unfold parseChangedLine
    rw [if_neg h]
  · intro self line h
    unfold parseChangedLine
    by_cases hlen6 : (pySplitNone 5 line).length = 6
    · have hneg : ¬(pyStartsWith ((pySplitNone 5 line).getD 0 "") ":" = true) := by
        rw [h]
        simp
      rw [if_pos hlen6, if_neg hneg]
    · rw [if_neg hlen6]

/-- Witness for C1: the record theorem at a concrete well-formed record. -/
theorem changed_files_c1_witness :
    parseChangedLine ⟨"c1"⟩
        (DiffRecord.render ⟨"100644", "100755", "aaa", "bbb", "M", "dir/f.py"⟩) =
      .ok { path := "dir/f.py", commit := some ⟨"c1"⟩, mode := some "100755",
            object_id := some "bbb" } :=
  (changed_files_c1.1 ⟨"c1"⟩ ⟨"100644", "100755", "aaa", "bbb", "M", "dir/f.py"⟩
    (by decide) (by decide)).2.2

/-- C7: on a regular file, `get_shebang_exe` returns the first whitespace
token after `/usr/bin/env` when the shebang target is exactly
`/usr/bin/env` (and such a token exists on the first line), the last path
segment of the shebang target otherwise, and the "none" result when there is
no shebang; `#!/usr/bin/env python3` yields `python3`, `#!/bin/bash` yields
`bash`, and content without `#!` yields none. -/
theorem shebang_exe_c7 :
    (∀ (m content : String), pyTake m 2 = "10" →
      pyStartsWith content "#!" = false →
      getShebangExeOf (some m) content = .ok none) ∧
    (∀ (m content line0 : String) (rest : List String) (t : String)
        (ts : List String),
      getShebangOf (some m) content = .ok (some "/usr/bin/env") →
      pySplitLines content = line0 :: rest →
      pySplitNone 1 (pyDrop line0 14) = t :: ts →
      getShebangExeOf (some m) content = .ok (some t)) ∧
    (∀ (m content sb : String),
      getShebangOf (some m) content = .ok (some sb) →
      sb ≠ "/usr/bin/env" → sb ≠ "" →
      getShebangExeOf (some m) content =
        .ok (some ((pySplitSep "/" sb).getLastD sb))) ∧
    getShebangExeOf (some "100644") "#!/usr/bin/env python3\nprint(1)\n" =
      .ok (some "python3") ∧
    getShebangExeOf (some "100644") "#!/bin/bash\necho hi\n" =
      .ok (some "bash") ∧
    getShebangExeOf (some "100644") "print(1)\n" = .ok none := by
  refine ⟨?_, ?_, ?_, by decide, by decide, by decide⟩
  · intro m content hm hns
    have hsb : getShebangOf (some m) content = .ok none := by
      simp only [getShebangOf]
      have hbeq : (pyTake m 2 == "10") = true := by
        rw [hm]
        decide
      rw [if_pos hbeq, if_neg (by simp [hns])]
    simp only [getShebangExeOf, hsb]
  · intro m content line0 rest t ts hsb hlines htok
    simp only [getShebangExeOf, hsb]
    rw [if_pos trivial]
    simp only [hlines, htok]
    rw [if_neg (by decide)]
  · intro m content sb hsb hne hnempty
    simp only [getShebangExeOf, hsb]
    rw [if_neg hnempty, if_neg hne]

/-- Witness for C7: the non-env case of `shebang_exe_c7` at concrete
content. -/
theorem shebang_exe_c7_witness :
    getShebangExeOf (some "100755") "#!/bin/sh\nx" =
      .ok (some ((pySplitSep "/" "/bin/sh").getLastD "/bin/sh")) :=
  shebang_exe_c7.2.2.1 "100755" "#!/bin/sh\nx" "/bin/sh" (by decide)
    (by decide) (by decide)

/-! ## Lemmas about the stateful accessors (memoization) -/

theorem fetchContentS_of_fetched (repo : CommitRepo) (s : CommitState)
    (h : s.content_fetched = true) : fetchContentS repo s = (.ok s, 0) := by
  unfold fetchContentS
  rw [if_pos h]

theorem fetchContentS_ok (repo : CommitRepo) (s s' : CommitState) (n : Nat)
    (h : fetchContentS repo s = (.ok s', n)) :
    s'.content_fetched = true ∧ n ≤ 1 := by
  cases hb : s.content_fetched with
  | true =>
    rw [fetchContentS_of_fetched repo s hb, Prod.mk.injEq] at h
    obtain ⟨h1, h2⟩ := h
    injection h1 with h1
    subst h1
    exact ⟨hb, by omega⟩
  | false =>
    simp only [fetchContentS, hb, Bool.false_eq_true, if_false] at h
    cases hc : repo.catFileCommit with
    | error e =>
      simp only [hc, Prod.mk.injEq] at h
      exact absurd h.1 (by simp)
    | ok body =>
      simp only [hc] at h
      cases hp : fetchContent body with
      | error e =>
        simp only [hp, Prod.mk.injEq] at h
        exact absurd h.1 (by simp)
      | ok fc =>
        simp only [hp, Prod.mk.injEq, Except.ok.injEq] at h
        obtain ⟨h1, h2⟩ := h
        rw [← h1]
        exact ⟨rfl, by omega⟩

theorem viaFetch_memo {α : Type} (extract : CommitState → Except PyErr α)
    (repo : CommitRepo) (s : CommitState) (v : α) (s' : CommitState) (n : Nat)
    (h : viaFetch extract repo s = (.ok v, s', n)) :
    n ≤ 1 ∧ viaFetch extract repo s' = (.ok v, s', 0) := by
  unfold viaFetch at h ⊢
  rcases hfc : fetchContentS repo s with ⟨res, m⟩
  rw [hfc] at h
  cases res with
  | error e =>
    have h' : ((Except.error e : Except PyErr α), s, m) = (.ok v, s', n) := h
    rw [Prod.mk.injEq] at h'
    exact absurd h'.1 (by simp)
  | ok s0 =>
    have h' : (extract s0, s0, m) = (.ok v, s', n) := h
    rw [Prod.mk.injEq, Prod.mk.injEq] at h'
    obtain ⟨h1, h2, h3⟩ := h'
    obtain ⟨hfet, hle⟩ := fetchContentS_ok repo s s0 m hfc
    subst h2
    refine ⟨by omega, ?_⟩
    rw [fetchContentS_of_fetched repo s0 hfet]
    show (extract s0, s0, 0) = (.ok v, s0, 0)
    rw [h1]

theorem getChangedFilesS_memo (repo : CommitRepo) (s : CommitState)
    (v : List CommittedFile) (s' : CommitState) (n : Nat)
    (h : getChangedFilesS repo s = (.ok v, s', n)) :
    n ≤ 1 ∧ getChangedFilesS repo s' = (.ok v, s', 0) := by
  cases hcf : s.changed_files with
  | some cf =>
    simp only [getChangedFilesS, hcf, Prod.mk.injEq, Except.ok.injEq] at h
    obtain ⟨h1, h2, h3⟩ := h
    subst h1 h2
    refine ⟨by omega, ?_⟩
    simp only [getChangedFilesS, hcf]
  | none =>
    simp only [getChangedFilesS, hcf] at h
    cases hd : repo.diffTree with
    | error e =>
      simp only [hd, Prod.mk.injEq] at h
      exact absurd h.1 (by simp)
    | ok out =>
      simp only [hd] at h
      cases hp : parseChangedFiles ⟨s.commit_id⟩ out with
      | error e =>
        simp only [hp, Prod.mk.injEq] at h
        exact absurd h.1 (by simp)
      | ok cf =>
        simp only [hp, Prod.mk.injEq, Except.ok.injEq] at h
        obtain ⟨h1, h2, h3⟩ := h
        subst h1
        rw [← h2]
        refine ⟨by omega, ?_⟩
        simp only [getChangedFilesS]

theorem getBinaryFilesS_memo (repo : CommitRepo) (s : CommitState)
    (v : List String) (s' : CommitState) (n : Nat)
    (h : getBinaryFilesS repo s = (.ok v, s', n)) :
    n ≤ 1 ∧ getBinaryFilesS repo s' = (.ok v, s', 0) := by
  cases hbf : s.binary_files with
  | some bf =>
    simp only [getBinaryFilesS, hbf, Prod.mk.injEq, Except.ok.injEq] at h
    obtain ⟨h1, h2, h3⟩ := h
    subst h1 h2
    refine ⟨by omega, ?_⟩
    simp only [getBinaryFilesS, hbf]
  | none =>
    simp only [getBinaryFilesS, hbf] at h
    cases hd : repo.numstat with
    | error e =>
      simp only [hd, Prod.mk.injEq] at h
      exact absurd h.1 (by simp)
    | ok out =>
      simp only [hd, Prod.mk.injEq, Except.ok.injEq] at h
      obtain ⟨h1, h2, h3⟩ := h
      subst h1
      rw [← h2]
      refine ⟨by omega, ?_⟩
      simp only [getBinaryFilesS]

theorem getProjectsS_memo (repo : CommitRepo) (s : CommitState)
    (v : String) (s' : CommitState) (n : Nat)
    (h : getProjectsS repo s = (.ok v, s', n)) :
    n ≤ 1 ∧ getProjectsS repo s' = (.ok v, s', 0) := by
  cases hf : s.project_fetched with
  | true =>
    cases hpa : s.projectsAttr with
    | none =>
      simp only [getProjectsS, hf, if_true, hpa, Prod.mk.injEq] at h
      exact absurd h.1 (by simp)
    | some p =>
      simp only [getProjectsS, hf, if_true, hpa, Prod.mk.injEq,
        Except.ok.injEq] at h
      obtain ⟨h1, h2, h3⟩ := h
      subst h1 h2
      refine ⟨by omega, ?_⟩
      simp only [getProjectsS, hf, if_true, hpa]
  | false =>
    simp only [getProjectsS, hf, Bool.false_eq_true, if_false] at h
    cases hr : repo.remoteV with
    | error e =>
      simp only [hr, Prod.mk.injEq] at h
      exact absurd h.1 (by simp)
    | ok out =>
      simp only [hr] at h
      cases hp : getProjectInfo out with
      | error e =>
        simp only [hp, Prod.mk.injEq] at h
        exact absurd h.1 (by simp)
      | ok p =>
        simp only [hp, Prod.mk.injEq, Except.ok.injEq] at h
        obtain ⟨h1, h2, h3⟩ := h
        subst h1
        rw [← h2]
        refine ⟨by omega, ?_⟩
        simp only [getProjectsS]
        rw [if_pos trivial]

theorem getContentS_memo (repo : FileRepo) (f : CommittedFile)
    (v : String) (f' : CommittedFile) (n : Nat)
    (h : getContentS repo f = (.ok v, f', n)) :
    n ≤ 1 ∧ getContentS repo f' = (.ok v, f', 0) ∧ f'.mode = f.mode := by
  cases hc : f.content with
  | some c =>
    simp only [getContentS, hc, Prod.mk.injEq, Except.ok.injEq] at h
    obtain ⟨h1, h2, h3⟩ := h
    subst h1 h2
    refine ⟨by omega, ?_, rfl⟩
    simp only [getContentS, hc]
  | none =>
    simp only [getContentS, hc] at h
    cases hs : repo.showFile with
    | error e =>
      simp only [hs, Prod.mk.injEq] at h
      exact absurd h.1 (by simp)
    | ok c =>
      simp only [hs, Prod.mk.injEq, Except.ok.injEq] at h
      obtain ⟨h1, h2, h3⟩ := h
      subst h1
      rw [← h2]
      refine ⟨by omega, ?_, rfl⟩
      simp only [getContentS]

theorem getShebangS_memo (repo : FileRepo) (f : CommittedFile)
    (v : Option String) (f' : CommittedFile) (n : Nat)
    (h : getShebangS repo f = (.ok v, f', n)) :
    n ≤ 1 ∧ getShebangS repo f' = (.ok v, f', 0) := by
  cases hm : f.mode with
  | none =>
    simp only [getShebangS, hm, Prod.mk.injEq] at h
    exact absurd h.1 (by simp)
  | some m =>
    cases hreg : (pyTake m 2 == "10") with
    | true =>
      simp only [getShebangS, hm, hreg, if_true] at h
      rcases hgc : getContentS repo f with ⟨res, f0, m0⟩
      rw [hgc] at h
      cases res with
      | error e =>
        have h' : ((Except.error e : Except PyErr (Option String)), f0, m0) =
            (.ok v, f', n) := h
        rw [Prod.mk.injEq] at h'
        exact absurd h'.1 (by simp)
      | ok c =>
        have h' : (getShebangOf (some m) c, f0, m0) = (.ok v, f', n) := h
        rw [Prod.mk.injEq, Prod.mk.injEq] at h'
        obtain ⟨h1, h2, h3⟩ := h'
        subst h2 h3
        obtain ⟨hle, hsecond, hmode⟩ := getContentS_memo repo f c f0 m0 hgc
        refine ⟨hle, ?_⟩
        simp only [getShebangS, hmode.trans hm, hreg, if_true, hsecond]
        rw [h1]
    | false =>
      simp only [getShebangS, hm, hreg, Bool.false_eq_true, if_false,
        Prod.mk.injEq, Except.ok.injEq] at h
      obtain ⟨h1, h2, h3⟩ := h
      subst h1 h2
      refine ⟨by omega, ?_⟩
      simp only [getShebangS, hm, hreg, Bool.false_eq_true, if_false]

theorem getFileProjectsS_memo (repo : FileRepo) (f : CommittedFile)
    (v : String) (f' : CommittedFile) (n : Nat)
    (h : getFileProjectsS repo f = (.ok v, f', n)) :
    n ≤ 1 ∧ getFileProjectsS repo f' = (.ok v, f', 0) := by
  cases hf : f.project_fetched with
  | true =>
    cases hpa : f.projectsAttr with
    | none =>
      simp only [getFileProjectsS, hf, if_true, hpa, Prod.mk.injEq] at h
      exact absurd h.1 (by simp)
    | some p =>
      simp only [getFileProjectsS, hf, if_true, hpa, Prod.mk.injEq,
        Except.ok.injEq] at h
      obtain ⟨h1, h2, h3⟩ := h
      subst h1 h2
      refine ⟨by omega, ?_⟩
      simp only [getFileProjectsS, hf, if_true, hpa]
  | false =>
    simp only [getFileProjectsS, hf, Bool.false_eq_true, if_false] at h
    cases hr : repo.remoteV with
    | error e =>
      simp only [hr, Prod.mk.injEq] at h
      exact absurd h.1 (by simp)
    | ok out =>
      simp only [hr] at h
      cases hp : getProjectInfo out with
      | error e =>
        simp only [hp, Prod.mk.injEq] at h
        exact absurd h.1 (by simp)
      | ok p =>
        simp only [hp, Prod.mk.injEq, Except.ok.injEq] at h
        obtain ⟨h1, h2, h3⟩ := h
        subst h1
        rw [← h2]
        refine ⟨by omega, ?_⟩
        simp only [getFileProjectsS]
        rw [if_pos trivial]

theorem getFileSizeS_count (repo : FileRepo) (f : CommittedFile) :
    (getFileSizeS repo f).2.2 = 1 ∧ (getFileSizeS repo f).2.1 = f := by
  cases hc : repo.catFileSize with
  | ok out =>
    cases hp : pyParseInt out <;> simp [getFileSizeS, hc, hp]
  | error e => simp [getFileSizeS, hc]

/-- Concrete command oracle for the C4 counterexample. -/
def cexFileRepo : FileRepo :=
  { showFile := .ok "", catFileSize := .ok "5\n", remoteV := .ok "" }

/-- Concrete file instance for the C4 counterexample. -/
def cexFile : CommittedFile :=
  { path := "a.bin", commit := some ⟨"c9"⟩, mode := some "100644",
    object_id := some "oid" }

/-- Counterexample for C4: `get_file_size` is not memoized — its first call
succeeds with the size, yet a repeated call performs a second external
invocation (two in total, not at most one). -/
theorem memoization_c4_counterexample :
    (getFileSizeS cexFileRepo cexFile).1 = .ok 5 ∧
    (getFileSizeS cexFileRepo cexFile).2.2 = 1 ∧
    (getFileSizeS cexFileRepo ((getFileSizeS cexFileRepo cexFile).2.1)).2.2 = 1 := by
  refine ⟨by decide, by decide, by decide⟩

/-- C4 amended: every listed lazily-resolved accessor except
`get_file_size` is memoized — a successful call performs at most one
external invocation and a repeated call returns the same value from the
cache with no further invocation, with a computed-empty result cached
distinctly from the not-yet-computed sentinel; `get_file_size` performs one
external invocation on every call. -/
theorem memoization_c4_amended :
    (∀ (repo : CommitRepo) (s : CommitState) v s' n,
      getParentsS repo s = (.ok v, s', n) →
      n ≤ 1 ∧ getParentsS repo s' = (.ok v, s', 0)) ∧
    (∀ (repo : CommitRepo) (s : CommitState) v s' n,
      getAuthorS repo s = (.ok v, s', n) →
      n ≤ 1 ∧ getAuthorS repo s' = (.ok v, s', 0)) ∧
    (∀ (repo : CommitRepo) (s : CommitState) v s' n,
      getCommitterS repo s = (.ok v, s', n) →
      n ≤ 1 ∧ getCommitterS repo s' = (.ok v, s', 0)) ∧
    (∀ (repo : CommitRepo) (s : CommitState) v s' n,
      getMessageLinesS repo s = (.ok v, s', n) →
      n ≤ 1 ∧ getMessageLinesS repo s' = (.ok v, s', 0)) ∧
    (∀ (repo : CommitRepo) (s : CommitState) v s' n,
      getChangedFilesS repo s = (.ok v, s', n) →
      n ≤ 1 ∧ getChangedFilesS repo s' = (.ok v, s', 0)) ∧
    (∀ (repo : CommitRepo) (s : CommitState) v s' n,
      getBinaryFilesS repo s = (.ok v, s', n) →
      n ≤ 1 ∧ getBinaryFilesS repo s' = (.ok v, s', 0)) ∧
    (∀ (repo : CommitRepo) (s : CommitState) v s' n,
      getProjectsS repo s = (.ok v, s', n) →
      n ≤ 1 ∧ getProjectsS repo s' = (.ok v, s', 0)) ∧
    (∀ (repo : FileRepo) (f : CommittedFile) v f' n,
      getContentS repo f = (.ok v, f', n) →
      n ≤ 1 ∧ getContentS repo f' = (.ok v, f', 0)) ∧
    (∀ (repo : FileRepo) (f : CommittedFile) v f' n,
      getShebangS repo f = (.ok v, f', n) →
      n ≤ 1 ∧ getShebangS repo f' = (.ok v, f', 0)) ∧
    (∀ (repo : FileRepo) (f : CommittedFile) v f' n,
      getFileProjectsS repo f = (.ok v, f', n) →
      n ≤ 1 ∧ getFileProjectsS repo f' = (.ok v, f', 0)) ∧
    (∀ (repo : CommitRepo) (s : CommitState), s.changed_files = some [] →
      getChangedFilesS repo s = (.ok [], s, 0)) ∧
    (∀ (repo : CommitRepo) (s : CommitState), s.binary_files = some [] →
      getBinaryFilesS repo s = (.ok [], s, 0)) ∧
    (∀ (repo : FileRepo) (f : CommittedFile), f.content = some "" →
      getContentS repo f = (.ok "", f, 0)) ∧
    (∀ (repo : FileRepo) (f : CommittedFile),
      (getFileSizeS repo f).2.2 = 1) := by
  refine ⟨fun repo s v s' n h => viaFetch_memo _ repo s v s' n h,
    fun repo s v s' n h => viaFetch_memo _ repo s v s' n h,
    fun repo s v s' n h => viaFetch_memo _ repo s v s' n h,
    fun repo s v s' n h => viaFetch_memo _ repo s v s' n h,
    getChangedFilesS_memo, getBinaryFilesS_memo, getProjectsS_memo,
    fun repo f v f' n h =>
      ⟨(getContentS_memo repo f v f' n h).1, (getContentS_memo repo f v f' n h).2.1⟩,
    getShebangS_memo, getFileProjectsS_memo, ?_, ?_, ?_,
    fun repo f => (getFileSizeS_count repo f).1⟩
  · intro repo s h
    simp only [getChangedFilesS, h]
  · intro repo s h
    simp only [getBinaryFilesS, h]
  · intro repo f h
    simp only [getContentS, h]

/-- Concrete command oracle for the C4 witness. -/
def cexCommitRepo : CommitRepo :=
  { catFileCommit := .ok "", diffTree := .ok "", numstat := .ok "",
    remoteV := .ok "" }

/-- The state of the C4 witness commit after its first (successful)
changed-files resolution: the empty result is cached. -/
def cexCommitState1 : CommitState :=
  { commit_id := "c0", changed_files := some [] }

/-- Witness for C4 amended: after one successful `get_changed_files` call on
a fresh commit the second call is served from the cache with zero
invocations. -/
theorem memoization_c4_amended_witness :
    getChangedFilesS cexCommitRepo cexCommitState1 = (.ok [], cexCommitState1, 0) :=
  (memoization_c4_amended.2.2.2.2.1 cexCommitRepo (Commit.init "c0") []
    cexCommitState1 1 (by decide)).2

end Githooks
